import Mathlib

/-!
Verification of the Redis-backed message-queue subsystem (package `queue`,
`RedisQueue` and friends) against its natural-language specification.

The Go code is shallowly embedded: the Redis store (per-key lists plus the
single `delayed_queue` sorted set) becomes an explicit state record, JSON
byte strings become an inductive `Bytes` type with an injective encoding of
message envelopes, `time.Now()` becomes an explicit clock field, message-id
generation becomes a counter, and the fallibility of Redis write commands
(`LPush`, `ZAdd`) becomes a script of fault booleans consumed one per write.
Handlers are arbitrary functions from an envelope to an optional error code
(`none` = success), exactly as opaque as Go's `Handler` functions are to the
queue.
-/

/-- Serialized byte strings, as far as the queue inspects them.
`encMsg` is the JSON encoding of a `Message` value (fields in struct order:
ID, Topic, Payload, Timestamp, Retries, MaxRetries); `encDL` the encoding of
a `DeadLetterMessage` (embedded message fields plus Error and FailedAt);
`blob` stands for any other valid JSON document; `badJson` for bytes that
are not valid JSON (on which `json.Marshal` of an embedding `RawMessage`
fails and `json.Unmarshal` into `Message` fails). -/
inductive Bytes : Type where
  | encMsg (id : Nat) (topic : String) (payload : Bytes) (timestamp : Nat)
      (retries : Nat) (maxRetries : Nat) : Bytes
  | encDL (id : Nat) (topic : String) (payload : Bytes) (timestamp : Nat)
      (retries : Nat) (maxRetries : Nat) (err : Nat) (failedAt : Nat) : Bytes
  | blob (n : Nat) : Bytes
  | badJson (n : Nat) : Bytes
deriving DecidableEq

/-- The `Message` struct of package `queue`: ID, Topic, Payload
(`json.RawMessage`), Timestamp, Retries, MaxRetries. Ids and timestamps are
abstracted to naturals (Unix seconds for times). -/
structure Msg where
  id : Nat
  topic : String
  payload : Bytes
  timestamp : Nat
  retries : Nat
  maxRetries : Nat
deriving DecidableEq

/-- Whether bytes are a valid JSON document (everything except `badJson`). -/
def jsonValid : Bytes → Bool
  | .badJson _ => false
  | _ => true

/-- `json.Marshal` of a `Message` value. It fails exactly when the embedded
`RawMessage` payload is not valid JSON (Go's encoder re-compacts the raw
bytes and reports an error then); otherwise the encoding is the injective
`encMsg` record of the six fields. -/
def marshalMsg (m : Msg) : Option Bytes :=
  if jsonValid m.payload then
    some (.encMsg m.id m.topic m.payload m.timestamp m.retries m.maxRetries)
  else none

/-- `json.Unmarshal` of bytes into a `Message`. An `encDL` record also
decodes (its JSON is the envelope's fields plus two extra keys, which
`encoding/json` ignores). -/
def unmarshalMsg : Bytes → Option Msg
  | .encMsg i t p ts r mr => some ⟨i, t, p, ts, r, mr⟩
  | .encDL i t p ts r mr _ _ => some ⟨i, t, p, ts, r, mr⟩
  | _ => none

/-- A value passed as the untyped `payload` argument of `Publish` /
`PublishDelayed`: a `*Message` (the retry path passes the failed envelope
itself), a `json.RawMessage` (the delayed scheduler passes `msg.Payload`),
some other serializable value, or a value on which `json.Marshal` errors. -/
inductive PayloadVal : Type where
  | msgVal (m : Msg) : PayloadVal
  | rawVal (b : Bytes) : PayloadVal
  | blobVal (n : Nat) : PayloadVal
  | badVal : PayloadVal

/-- `json.Marshal` of the `payload` argument. A `RawMessage` marshals to its
own bytes when they are valid JSON; a `*Message` marshals via `marshalMsg`. -/
def marshalPayload : PayloadVal → Option Bytes
  | .msgVal m => marshalMsg m
  | .rawVal b => if jsonValid b then some b else none
  | .blobVal n => some (.blob n)
  | .badVal => none

/-- Association-list lookup with default, used for the per-key Redis lists
and for the topic-to-handlers registry (Go map reads return the zero value
for missing keys). -/
def assocGet {α : Type} : List (String × α) → String → α → α
  | [], _, d => d
  | e :: rest, k, d => if e.1 = k then e.2 else assocGet rest k d

/-- Association-list update (replace the binding for the key, or append a
new one). -/
def assocSet {α : Type} : List (String × α) → String → α → List (String × α)
  | [], k, v => [(k, v)]
  | e :: rest, k, v => if e.1 = k then (k, v) :: rest else e :: assocSet rest k v

/-- Errors the queue can return: the two `json.Marshal` failures and the
store-write failures, tagged with the wrapping text used in the Go code. -/
inductive QErr : Type where
  | marshalPayloadErr
  | marshalMessageErr
  | storePushErr
  | storeZAddErr
deriving DecidableEq

/-- The observable state of the store and of the ambient effects: the Redis
lists keyed by string (head = most recently `LPush`ed), the single
`delayed_queue` sorted set as a list of (score, member) pairs, the script of
pending store-write faults (head consumed by the next `LPush`/`ZAdd`; an
empty script means writes succeed), the message-id counter standing in for
`generateMessageID`, and the current Unix-seconds clock. -/
structure QState where
  lists : List (String × List Bytes)
  zset : List (Nat × Bytes)
  faults : List Bool
  nextId : Nat
  now : Nat
deriving DecidableEq

/-- The list stored at a Redis key (empty when absent). -/
def QState.getList (s : QState) (k : String) : List Bytes :=
  assocGet s.lists k []

/-- Outcome of the next fallible store write, consuming the fault script. -/
def takeFault (s : QState) : Bool × QState :=
  (s.faults.headD false, { s with faults := s.faults.tail })

/-- Redis `LPush`: prepend to the key's list. -/
def lpushState (s : QState) (k : String) (b : Bytes) : QState :=
  { s with lists := assocSet s.lists k (b :: s.getList k) }

/-- Redis `BRPop`: remove and return the last (oldest) element of the key's
list, or nothing when the list is empty (the 1-second timeout case). -/
def brpopState (s : QState) (k : String) : Option Bytes × QState :=
  match (s.getList k).getLast? with
  | none => (none, s)
  | some b => (some b, { s with lists := assocSet s.lists k (s.getList k).dropLast })

/-- Redis `ZAdd`: members are unique, so an existing entry with the same
member bytes is replaced (its score updated); the new pair is appended. -/
def zaddState (s : QState) (score : Nat) (b : Bytes) : QState :=
  { s with zset := s.zset.filter (fun q => decide (q.2 ≠ b)) ++ [(score, b)] }

/-- Redis `ZRem`: drop every pair with the given member bytes. -/
def zremState (s : QState) (b : Bytes) : QState :=
  { s with zset := s.zset.filter (fun q => decide (q.2 ≠ b)) }

/-- A subscriber handler: `none` is success, `some e` a returned error,
with `e` abstracting the error's message text. -/
abbrev Handler := Msg → Option Nat

/-- The in-process part of `RedisQueue`: the topic-to-handlers registry, the
multiset of spawned consumer goroutines (one entry per `go rq.consume(topic)`,
recording its topic), and the worker-pool channel as a count of buffered
tokens plus its capacity. -/
structure RQ where
  handlers : List (String × List Handler)
  consumers : List String
  tokens : Nat
  capacity : Nat

/-- `NewRedisQueue`: builds the queue record with an empty registry, fills
the worker pool with `maxWorkers` tokens, and returns it. There is no
validation and the signature has no error result: every `maxWorkers`,
including 0, yields a queue. -/
def NewRedisQueue (maxWorkers : Nat) : RQ :=
  { handlers := [], consumers := [], tokens := maxWorkers, capacity := maxWorkers }

/-- `RedisQueue.Publish`: marshal the payload, build an envelope with a
fresh id, the topic, the marshalled payload, the current time, `Retries: 0`
and `MaxRetries: 3`, marshal the envelope, and `LPush` it onto
`"queue:" ++ topic`. Each failure returns the corresponding wrapped error. -/
def Publish (s : QState) (topic : String) (p : PayloadVal) : Option QErr × QState :=
  match marshalPayload p with
  | none => (some .marshalPayloadErr, s)
  | some data =>
    let i := s.nextId
    let s1 : QState := { s with nextId := s.nextId + 1 }
    let msg : Msg := ⟨i, topic, data, s1.now, 0, 3⟩
    match marshalMsg msg with
    | none => (some .marshalMessageErr, s1)
    | some msgData =>
      let fs := takeFault s1
      if fs.1 then (some .storePushErr, fs.2)
      else (none, lpushState fs.2 ("queue:" ++ topic) msgData)

/-- `RedisQueue.PublishDelayed`: marshal the payload, build an envelope with
a fresh id, the topic, the payload and the current time — the struct
literal omits `Retries` and `MaxRetries`, leaving both at Go's zero value 0
— marshal it, and `ZAdd` it to the shared `"delayed_queue"` sorted set with
score `now + delay` (Unix seconds). -/
def PublishDelayed (s : QState) (topic : String) (p : PayloadVal) (delay : Nat) :
    Option QErr × QState :=
  match marshalPayload p with
  | none => (some .marshalPayloadErr, s)
  | some data =>
    let i := s.nextId
    let s1 : QState := { s with nextId := s.nextId + 1 }
    let msg : Msg := ⟨i, topic, data, s1.now, 0, 0⟩
    match marshalMsg msg with
    | none => (some .marshalMessageErr, s1)
    | some msgData =>
      let fs := takeFault s1
      if fs.1 then (some .storeZAddErr, fs.2)
      else (none, zaddState fs.2 (s1.now + delay) msgData)

/-- `RedisQueue.retryMessage`: computes the linear backoff delay
`Retries * 2` seconds and republishes the (already incremented) envelope
through `PublishDelayed`, passing the envelope itself as the payload and
discarding any error. -/
def retryMessage (s : QState) (m : Msg) : QState :=
  (PublishDelayed s m.topic (.msgVal m) (m.retries * 2)).2

/-- `RedisQueue.sendToDeadLetter`: wraps the envelope into a
`DeadLetterMessage` with the error text and the failure time, marshals it
(the error of `json.Marshal` is discarded; when it fails the pushed bytes
are nil, modelled as `badJson 0`), and `LPush`es onto
`"dead_letter:" ++ topic`, ignoring the push's own error. -/
def sendToDeadLetter (s : QState) (m : Msg) (e : Nat) : QState :=
  let data : Bytes :=
    if jsonValid m.payload then
      .encDL m.id m.topic m.payload m.timestamp m.retries m.maxRetries e s.now
    else .badJson 0
  let fs := takeFault s
  if fs.1 then fs.2 else lpushState fs.2 ("dead_letter:" ++ m.topic) data

/-- The handler loop of `RedisQueue.processMessage`, over the handler slice
fetched from the registry. Every handler is invoked (with the envelope as it
stands at that moment — the Go code mutates the shared `*Message`); on a
handler error, if `Retries < MaxRetries` the counter is incremented on the
shared envelope and `retryMessage` runs, otherwise `sendToDeadLetter` runs.
Besides the final state, the list of envelope values passed to the
successive handler invocations is returned as an observation. -/
def processMessageAux (s : QState) (m : Msg) : List Handler → QState × List Msg
  | [] => (s, [])
  | h :: rest =>
    match h m with
    | none =>
      let r := processMessageAux s m rest
      (r.1, m :: r.2)
    | some e =>
      if m.retries < m.maxRetries then
        let m1 : Msg := { m with retries := m.retries + 1 }
        let r := processMessageAux (retryMessage s m1) m1 rest
        (r.1, m :: r.2)
      else
        let r := processMessageAux (sendToDeadLetter s m e) m rest
        (r.1, m :: r.2)

/-- `RedisQueue.processMessage`: read the topic's handler slice from the
registry and run the handler loop. -/
def processMessage (rq : RQ) (s : QState) (m : Msg) : QState × List Msg :=
  processMessageAux s m (assocGet rq.handlers m.topic [])

/-- Body of the per-message goroutine spawned by `RedisQueue.consume`:
deserialize the popped bytes, returning silently on failure, else process
the message. The invocation trace is threaded through as an observation. -/
def processTask (rq : RQ) (s : QState) (data : Bytes) : QState × List Msg :=
  match unmarshalMsg data with
  | none => (s, [])
  | some m => processMessage rq s m

/-- One productive iteration of `RedisQueue.consume` for a topic: `BRPop`
from `"queue:" ++ topic` and, if an entry came back, run the processing
task on it. -/
def popProcess (rq : RQ) (s : QState) (topic : String) : QState × List Msg :=
  match brpopState s ("queue:" ++ topic) with
  | (none, s1) => (s1, [])
  | (some data, s1) => processTask rq s1 data

/-- `RedisQueue.Subscribe`: append the handler to the topic's slice in the
registry and unconditionally spawn a new consumer goroutine for the topic
(`rq.wg.Add(1); go rq.consume(topic)`); always returns nil. -/
def Subscribe (rq : RQ) (topic : String) (h : Handler) : RQ :=
  { rq with
    handlers := assocSet rq.handlers topic (assocGet rq.handlers topic [] ++ [h])
    consumers := topic :: rq.consumers }

/-- A sequence of `Subscribe` calls for one topic. -/
def subscribeAll (rq : RQ) (topic : String) (hs : List Handler) : RQ :=
  hs.foldl (fun r h => Subscribe r topic h) rq

/-- Handling of one due member inside a tick of
`RedisQueue.processDelayedMessages`: deserialize it (skipping it on
failure), `Publish` its topic and raw payload onto the ready list, and only
when that publish returned nil remove the member from the sorted set. -/
def tickStep (st : QState) (b : Bytes) : QState :=
  match unmarshalMsg b with
  | none => st
  | some m =>
    match Publish st m.topic (.rawVal m.payload) with
    | (some _, st1) => st1
    | (none, st1) => zremState st1 b

/-- The due members a tick reads: `ZRangeByScore "delayed_queue" 0 now`. -/
def dueMembers (s : QState) : List Bytes :=
  (s.zset.filter (fun q => decide (q.1 ≤ s.now))).map (fun q => q.2)

/-- One tick of the delayed scheduler: snapshot the due members, then
handle each in turn. -/
def tick (s : QState) : QState :=
  (dueMembers s).foldl tickStep s

/-- One system cycle for claim analysis: a consumer pops and processes one
entry of the topic's ready list, then time advances by `d` seconds and the
delayed scheduler runs one tick. -/
def stepCycle (rq : RQ) (topic : String) (d : Nat) (s : QState) : QState :=
  let s1 := (popProcess rq s topic).1
  tick { s1 with now := s1.now + d }

/-- Iterated system cycles, one per entry of the time-advance list. -/
def iterCycles (rq : RQ) (topic : String) (ds : List Nat) (s : QState) : QState :=
  ds.foldl (fun st d => stepCycle rq topic d st) s

/-- `acquireToken`: receiving from the worker-pool channel; with no buffered
token the consume loop would block, modelled as `none`. -/
def acquireToken (rq : RQ) : Option RQ :=
  match rq.tokens with
  | 0 => none
  | n + 1 => some { rq with tokens := n }

/-- The per-message goroutine together with its deferred token release: on
the early return of a failed deserialize and on the normal return after
`processMessage`, the deferred send puts one token back. -/
def taskBody (rq : RQ) (s : QState) (avail : Nat) (data : Bytes) :
    Nat × QState × List Msg :=
  match unmarshalMsg data with
  | none => (avail + 1, s, [])
  | some m =>
    let r := processMessage rq s m
    (avail + 1, r.1, r.2)

/-- The consume loop's dispatch of one popped entry: take a worker token
(blocking — unavailable — when none is buffered), then run the goroutine
body, which releases the token when it finishes. -/
def dispatch (rq : RQ) (s : QState) (avail : Nat) (data : Bytes) :
    Option (Nat × QState × List Msg) :=
  match avail with
  | 0 => none
  | n + 1 => some (taskBody rq s n data)

/-- Well-formedness of a ready-list entry for the single-topic analysis:
if it deserializes, the envelope belongs to the topic, was built by
`Publish` (retries 0, the default max-retries 3) and has valid payload. -/
def readyOkB (t : String) (b : Bytes) : Bool :=
  match unmarshalMsg b with
  | none => true
  | some m => m.topic == t && m.retries == 0 && m.maxRetries == 3 && jsonValid m.payload

/-- Well-formedness of a delayed-set member for the single-topic analysis:
if it deserializes, its envelope routes to the topic. -/
def zsetOkB (t : String) (b : Bytes) : Bool :=
  match unmarshalMsg b with
  | none => true
  | some m => m.topic == t

/-- Store invariant for a single subscribed topic `t`: every Redis list is
either the topic's ready list or empty (in particular every dead-letter
list is empty), every decodable ready entry is a fresh `Publish` envelope
of `t`, and every decodable delayed member routes to `t`. -/
def InvCore (t : String) (lists : List (String × List Bytes))
    (zset : List (Nat × Bytes)) : Bool :=
  lists.all (fun e => e.1 == "queue:" ++ t || e.2.isEmpty) &&
  (assocGet lists ("queue:" ++ t) []).all (readyOkB t) &&
  zset.all (fun q => zsetOkB t q.2)

/-- The invariant, as a predicate of the full state (it reads only the
store components). -/
def InvB (t : String) (s : QState) : Bool :=
  InvCore t s.lists s.zset

/-- The envelope-evolution trace the spec's fan-out description induces:
every handler sees the envelope, and after a failing handler that saw
`retries < maxRetries` the shared counter is one larger. -/
def traceOf (m : Msg) : List Handler → List Msg
  | [] => []
  | h :: rest =>
    m :: traceOf
      (match h m with
        | none => m
        | some _ =>
          if m.retries < m.maxRetries then { m with retries := m.retries + 1 } else m)
      rest

/-- Whether the next store write would fail, without consuming the script. -/
def headFault (s : QState) : Bool :=
  s.faults.headD false

/-- A handler that fails on every invocation. -/
def hFail : Handler := fun _ => some 0

/-- A handler that succeeds on every invocation. -/
def hOk : Handler := fun _ => none

/-- The empty store with clock, counter and fault script at their zero
values. -/
def initState : QState := ⟨[], [], [], 0, 0⟩

/-- A queue with the always-failing handler subscribed on topic `"a"`. -/
def rqFailA : RQ := Subscribe (NewRedisQueue 1) "a" hFail

/-- The store right after one successful publish to topic `"a"`. -/
def s0FailA : QState := (Publish initState "a" (.blobVal 7)).2

/-! ## Helper lemmas -/

theorem assocGet_set_eq {α : Type} (l : List (String × α)) (k : String) (v d : α) :
    assocGet (assocSet l k v) k d = v := by
  induction l with
  | nil => simp [assocSet, assocGet]
  | cons e rest ih =>
    by_cases h : e.1 = k
    · simp [assocSet, assocGet, h]
    · simp [assocSet, assocGet, h, ih]

theorem assocGet_set_ne {α : Type} (l : List (String × α)) (k k' : String) (v d : α)
    (h : k' ≠ k) :
    assocGet (assocSet l k v) k' d = assocGet l k' d := by
  have hk : ¬(k = k') := fun hh => h hh.symm
  induction l with
  | nil => simp [assocSet, assocGet, hk]
  | cons e rest ih =>
    by_cases he : e.1 = k
    · have he' : ¬(e.1 = k') := by rw [he]; exact hk
      simp [assocSet, assocGet, he, hk, he']
    · by_cases he' : e.1 = k'
      · simp [assocSet, assocGet, he, he', h]
      · simp [assocSet, assocGet, he, he', ih]

theorem mem_assocSet {α : Type} (l : List (String × α)) (k : String) (v : α)
    (e : String × α) (h : e ∈ assocSet l k v) : e = (k, v) ∨ e ∈ l := by
  induction l with
  | nil =>
    simp [assocSet] at h
    exact Or.inl h
  | cons e0 rest ih =>
    by_cases h0 : e0.1 = k
    · simp [assocSet, h0] at h
      rcases h with h | h
      · exact Or.inl h
      · exact Or.inr (List.mem_cons_of_mem _ h)
    · simp [assocSet, h0] at h
      rcases h with h | h
      · exact Or.inr (by simp [h])
      · rcases ih h with h1 | h1
        · exact Or.inl h1
        · exact Or.inr (List.mem_cons_of_mem _ h1)

theorem assocGet_nil_of_all (l : List (String × List Bytes)) (q k : String)
    (hall : l.all (fun e => e.1 == q || e.2.isEmpty) = true) (hk : k ≠ q) :
    assocGet l k [] = [] := by
  induction l with
  | nil => rfl
  | cons e rest ih =>
    simp only [List.all_cons, Bool.and_eq_true, Bool.or_eq_true, beq_iff_eq,
      List.isEmpty_iff] at hall
    by_cases he : e.1 = k
    · rcases hall.1 with h1 | h1
      · exact absurd (he.symm.trans h1) hk
      · simpa [assocGet, he] using h1
    · simpa [assocGet, he] using ih hall.2

theorem deadletter_key_ne (t : String) : ("dead_letter:" ++ t) ≠ ("queue:" ++ t) := by
  intro h
  have hl := congrArg String.length h
  rw [String.length_append, String.length_append] at hl
  have h1 : ("dead_letter:").length = 12 := by decide
  have h2 : ("queue:").length = 6 := by decide
  omega

theorem mem_of_getLast? {α : Type} (l : List α) (a : α) (h : l.getLast? = some a) :
    a ∈ l := by
  induction l with
  | nil => simp [List.getLast?] at h
  | cons x rest ih =>
    cases rest with
    | nil =>
      simp [List.getLast?] at h
      simp [h]
    | cons y ys =>
      rw [List.getLast?_cons_cons] at h
      exact List.mem_cons_of_mem _ (ih h)

theorem mem_dropLast {α : Type} (l : List α) (a : α) (h : a ∈ l.dropLast) : a ∈ l :=
  List.dropLast_subset l h

theorem jsonValid_of_marshalPayload (p : PayloadVal) (data : Bytes)
    (h : marshalPayload p = some data) : jsonValid data = true := by
  cases p with
  | msgVal m =>
    simp [marshalPayload, marshalMsg] at h
    rcases h with ⟨h1, h2⟩
    rw [← h2]
    rfl
  | rawVal b =>
    by_cases hb : jsonValid b
    · simp [marshalPayload, hb] at h
      rw [← h]
      exact hb
    · simp [marshalPayload, hb] at h
  | blobVal n =>
    simp [marshalPayload] at h
    rw [← h]
    rfl
  | badVal => simp [marshalPayload] at h

/-! ## C8: silent drop of undeserializable messages -/

/-- C8: a popped list entry whose bytes fail to deserialize into an envelope
is dropped by the processing task: the task leaves the store untouched —
so no handler runs, no retry is scheduled, no dead-letter record is written
— and the invocation trace is empty; the task returns nothing to any
caller. -/
theorem badBytesDroppedSilently (rq : RQ) (s : QState) (data : Bytes)
    (h : unmarshalMsg data = none) :
    processTask rq s data = (s, []) := by
  unfold processTask
  rw [h]

theorem badBytesDroppedSilently_witness :
    unmarshalMsg (.blob 3) = none ∧
    processTask (NewRedisQueue 1) initState (.blob 3) = (initState, []) :=
  ⟨rfl, badBytesDroppedSilently (NewRedisQueue 1) initState (.blob 3) rfl⟩

/-! ## C10: worker-pool token balance -/

/-- C10: dispatching one popped entry has net-zero effect on the worker
pool: the token taken before the processing task is spawned is put back by
the deferred send exactly once on every path of the task — deserialization
failure, handler success and handler failure alike — so the available token
count after the task finishes equals the count before dispatch. -/
theorem workerTokenNetZero (rq : RQ) (s : QState) (avail : Nat) (data : Bytes)
    (h : avail ≠ 0) :
    ∃ s2 tr, dispatch rq s avail data = some (avail, s2, tr) := by
  cases avail with
  | zero => exact absurd rfl h
  | succ n =>
    cases hm : unmarshalMsg data with
    | none => exact ⟨s, [], by simp [dispatch, taskBody, hm]⟩
    | some m =>
      exact ⟨(processMessage rq s m).1, (processMessage rq s m).2,
        by simp [dispatch, taskBody, hm]⟩

theorem workerTokenNetZero_witness :
    (2 : Nat) ≠ 0 ∧
    ∃ s2 tr, dispatch (NewRedisQueue 2) initState 2 (.blob 0) = some (2, s2, tr) :=
  ⟨by decide, workerTokenNetZero (NewRedisQueue 2) initState 2 (.blob 0) (by decide)⟩

/-! ## C9: zero worker-pool size is accepted at construction -/

/-- C9 counterexample: `NewRedisQueue` with `maxWorkers = 0` is not rejected
— the constructor has no error result and performs no validation — and
returns a queue whose worker pool holds zero tokens. -/
theorem zeroWorkersAccepted :
    NewRedisQueue 0 =
      { handlers := [], consumers := [], tokens := 0, capacity := 0 } ∧
    acquireToken (NewRedisQueue 0) = none :=
  ⟨rfl, rfl⟩

/-- C9 amended: queue construction performs no validation of the worker
pool size; `maxWorkers = 0` yields a queue whose pool has zero capacity, on
which no token can ever be acquired and no popped entry can ever be
dispatched — the misconfiguration surfaces only during operation. -/
theorem zeroWorkersBrokenInOperation (s : QState) (data : Bytes) :
    (NewRedisQueue 0).capacity = 0 ∧
    acquireToken (NewRedisQueue 0) = none ∧
    dispatch (NewRedisQueue 0) s ((NewRedisQueue 0).tokens) data = none :=
  ⟨rfl, rfl, rfl⟩

/-! ## C6: Subscribe spawns a consumer loop every call -/

/-- C6 counterexample: two `Subscribe` calls for topic `"t"` leave two
consumer loops running for `"t"`, not at most one — `Subscribe` spawns
`go rq.consume(topic)` unconditionally, with no check whether a loop is
already running. -/
theorem subscribeTwiceTwoLoops :
    ((Subscribe (Subscribe (NewRedisQueue 2) "t" hOk) "t" hOk).consumers.count "t") = 2 ∧
    ¬(((Subscribe (Subscribe (NewRedisQueue 2) "t" hOk) "t" hOk).consumers.count "t") ≤ 1) := by
  constructor
  · rfl
  · decide

/-- C6 amended: `Subscribe` registers the handler (appending it to the
topic's slice) and unconditionally starts one new Consumer Loop per call;
after n `Subscribe` calls for a topic, n loops for that topic are running. -/
theorem subscribeAlwaysSpawns (rq : RQ) (t : String) (h : Handler)
    (hs : List Handler) :
    (Subscribe rq t h).consumers = t :: rq.consumers ∧
    assocGet (Subscribe rq t h).handlers t [] = assocGet rq.handlers t [] ++ [h] ∧
    (subscribeAll rq t hs).consumers.count t = rq.consumers.count t + hs.length := by
  refine ⟨rfl, ?_, ?_⟩
  · unfold Subscribe
    exact assocGet_set_eq rq.handlers t _ []
  · induction hs generalizing rq with
    | nil => simp [subscribeAll]
    | cons h0 rest ih =>
      have hstep : subscribeAll rq t (h0 :: rest) = subscribeAll (Subscribe rq t h0) t rest := rfl
      rw [hstep, ih (Subscribe rq t h0)]
      simp [Subscribe, List.count_cons]
      omega

/-! ## C5: handlers share the envelope's retry counter -/

/-- C5 counterexample: with four always-failing handlers registered and an
envelope at `retries = 0`, `max_retries = 3`, the four invocations see
`retries` values 0, 1, 2, 3 — each failing handler's increment is visible
to the next handler's policy decision — and the fourth decision dead-letters
the envelope (a dead-letter record is written), which under independent
per-handler decisions (each seeing `retries = 0 < 3`) could not happen. -/
theorem handlersShareRetryCounter :
    ((processMessageAux initState ⟨1, "t", .blob 0, 0, 0, 3⟩
        [hFail, hFail, hFail, hFail]).2.map Msg.retries = [0, 1, 2, 3]) ∧
    (processMessageAux initState ⟨1, "t", .blob 0, 0, 0, 3⟩
        [hFail, hFail, hFail, hFail]).1.getList ("dead_letter:" ++ "t") ≠ [] := by
  constructor
  · decide
  · decide

/-- C5 amended: when an envelope is processed, every registered handler for
its topic is invoked, in registration order; but the retry decisions are
not independent — the handlers share the envelope's mutable `retries`
counter, and each failing handler that saw `retries < max_retries`
increments it before the next handler's invocation and decision. The trace
of envelope values passed to the successive handlers follows exactly this
shared-counter evolution. -/
theorem fanOutSharesCounter (s : QState) (m : Msg) (hs : List Handler) :
    (processMessageAux s m hs).2 = traceOf m hs ∧
    (traceOf m hs).length = hs.length := by
  constructor
  · induction hs generalizing s m with
    | nil => rfl
    | cons h rest ih =>
      cases hm : h m with
      | none => simp [processMessageAux, traceOf, hm, ih]
      | some e =>
        by_cases hr : m.retries < m.maxRetries
        · simp [processMessageAux, traceOf, hm, hr, ih]
        · simp [processMessageAux, traceOf, hm, hr, ih]
  · induction hs generalizing m with
    | nil => rfl
    | cons h rest ih =>
      simp [traceOf, ih]

/-! ## C2: what the retry policy actually re-publishes -/

/-- C2: evaluating the retry path on a failed envelope (id 5, topic "t",
payload `blob 7`, created_at 90, retries 0, max_retries 3, handler failing)
shows the re-published delayed entry is a fresh envelope: its id is the
newly generated 42 (not 5), its timestamp is the current time 100 (not the
original 90), its retries field is 0 (not the incremented 1), and its
payload is the serialization of the whole failed envelope (not the original
payload `blob 7`) — contradicting preservation of id, created_at and
payload with only `retries` differing. -/
theorem retryRepublishWrapsEnvelope :
    ((processMessageAux ⟨[], [], [], 42, 100⟩ ⟨5, "t", .blob 7, 90, 0, 3⟩
        [hFail]).1.zset.map (fun q => (q.1, unmarshalMsg q.2)))
      = [(102, some ⟨42, "t", .encMsg 5 "t" (.blob 7) 90 1 3, 100, 0, 0⟩)] ∧
    ((42 : Nat) ≠ 5 ∧ (100 : Nat) ≠ 90 ∧ (0 : Nat) ≠ 0 + 1 ∧
      Bytes.encMsg 5 "t" (.blob 7) 90 1 3 ≠ .blob 7) := by
  constructor
  · decide
  · decide


/-! ## C4 and C3: the publish contracts -/

theorem getList_lpush (s : QState) (k : String) (b : Bytes) (k' : String) :
    (lpushState s k b).getList k' =
      if k' = k then b :: s.getList k else s.getList k' := by
  unfold lpushState QState.getList
  by_cases h : k' = k
  · subst h
    simp [assocGet_set_eq]
  · simp [h, assocGet_set_ne s.lists k k' _ [] h]

theorem publish_none (s : QState) (t : String) (p : PayloadVal)
    (hp : marshalPayload p = none) :
    Publish s t p = (some .marshalPayloadErr, s) := by
  simp [Publish, hp]

theorem publish_fault (s : QState) (t : String) (p : PayloadVal) (data : Bytes)
    (hp : marshalPayload p = some data) (hf : headFault s = true) :
    Publish s t p =
      (some .storePushErr,
        { s with nextId := s.nextId + 1, faults := s.faults.tail }) := by
  have hv := jsonValid_of_marshalPayload p data hp
  simp only [headFault, List.headD_eq_head?_getD] at hf
  simp [Publish, hp, marshalMsg, hv, takeFault, hf]

theorem publish_ok (s : QState) (t : String) (p : PayloadVal) (data : Bytes)
    (hp : marshalPayload p = some data) (hf : headFault s = false) :
    Publish s t p =
      (none, lpushState { s with nextId := s.nextId + 1, faults := s.faults.tail }
        ("queue:" ++ t) (.encMsg s.nextId t data s.now 0 3)) := by
  have hv := jsonValid_of_marshalPayload p data hp
  simp only [headFault, List.headD_eq_head?_getD] at hf
  simp [Publish, hp, marshalMsg, hv, takeFault, hf]

theorem publishDelayed_none (s : QState) (t : String) (p : PayloadVal) (d : Nat)
    (hp : marshalPayload p = none) :
    PublishDelayed s t p d = (some .marshalPayloadErr, s) := by
  simp [PublishDelayed, hp]

theorem publishDelayed_fault (s : QState) (t : String) (p : PayloadVal) (d : Nat)
    (data : Bytes) (hp : marshalPayload p = some data) (hf : headFault s = true) :
    PublishDelayed s t p d =
      (some .storeZAddErr,
        { s with nextId := s.nextId + 1, faults := s.faults.tail }) := by
  have hv := jsonValid_of_marshalPayload p data hp
  simp only [headFault, List.headD_eq_head?_getD] at hf
  simp [PublishDelayed, hp, marshalMsg, hv, takeFault, hf]

theorem publishDelayed_ok (s : QState) (t : String) (p : PayloadVal) (d : Nat)
    (data : Bytes) (hp : marshalPayload p = some data) (hf : headFault s = false) :
    PublishDelayed s t p d =
      (none, zaddState { s with nextId := s.nextId + 1, faults := s.faults.tail }
        (s.now + d) (.encMsg s.nextId t data s.now 0 0)) := by
  have hv := jsonValid_of_marshalPayload p data hp
  simp only [headFault, List.headD_eq_head?_getD] at hf
  simp [PublishDelayed, hp, marshalMsg, hv, takeFault, hf]

theorem publish_zset (s : QState) (t : String) (p : PayloadVal) :
    ((Publish s t p).2).zset = s.zset := by
  cases hp : marshalPayload p with
  | none => rw [publish_none s t p hp]
  | some data =>
    cases hf : headFault s with
    | true => rw [publish_fault s t p data hp hf]
    | false =>
      rw [publish_ok s t p data hp hf]
      simp [lpushState]

/-- C4: `Publish` returns a non-nil error exactly when payload
serialization fails or the store push fails (envelope serialization of a
successfully marshalled payload cannot fail, so its disjunct never fires);
and on success the only store change is one push of the envelope — fresh
id, `retries = 0`, the configured default `max_retries = 3`, current
timestamp — onto the list keyed `"queue:" ++ topic`: every other list and
the delayed sorted set are unchanged. -/
theorem publishContract (s : QState) (t : String) (p : PayloadVal) :
    ((Publish s t p).1 ≠ none ↔ (marshalPayload p = none ∨ headFault s = true)) ∧
    (∀ data, marshalPayload p = some data → headFault s = false →
      (Publish s t p).1 = none ∧
      (∀ k, (Publish s t p).2.getList k =
        if k = "queue:" ++ t then
          Bytes.encMsg s.nextId t data s.now 0 3 :: s.getList ("queue:" ++ t)
        else s.getList k) ∧
      (Publish s t p).2.zset = s.zset) := by
  constructor
  · cases hp : marshalPayload p with
    | none => rw [publish_none s t p hp]; simp [hp]
    | some data =>
      cases hf : headFault s with
      | true => rw [publish_fault s t p data hp hf]; simp [hp, hf]
      | false => rw [publish_ok s t p data hp hf]; simp [hp, hf]
  · intro data hp hf
    rw [publish_ok s t p data hp hf]
    refine ⟨rfl, ?_, by simp [lpushState]⟩
    intro k
    have hg := getList_lpush
      { s with nextId := s.nextId + 1, faults := s.faults.tail }
      ("queue:" ++ t) (.encMsg s.nextId t data s.now 0 3) k
    simpa [QState.getList] using hg

theorem publishContract_witness :
    (Publish initState "t" (.blobVal 1)).1 = none ∧
    (Publish initState "t" (.blobVal 1)).2.getList ("queue:" ++ "t")
      = [.encMsg 0 "t" (.blob 1) 0 0 3] := by
  have h := (publishContract initState "t" (.blobVal 1)).2 (.blob 1) rfl rfl
  refine ⟨h.1, ?_⟩
  have h2 := h.2.1 ("queue:" ++ "t")
  rw [h2]
  simp [initState, QState.getList, assocGet]

/-- C3 counterexample: at the same state, topic and payload, the envelope
`PublishDelayed` inserts into the delayed sorted set carries
`max_retries = 0`, while the envelope `Publish` constructs carries the
default `max_retries = 3` — the construction is not the same. -/
theorem publishDelayedDropsMaxRetries :
    ((PublishDelayed ⟨[], [], [], 0, 10⟩ "t" (.blobVal 1) 5).2.zset.map
        (fun q => (q.1, unmarshalMsg q.2)))
      = [(15, some ⟨0, "t", .blob 1, 10, 0, 0⟩)] ∧
    (((Publish ⟨[], [], [], 0, 10⟩ "t" (.blobVal 1)).2.getList "queue:t").map
        unmarshalMsg)
      = [some ⟨0, "t", .blob 1, 10, 0, 3⟩] ∧
    (0 : Nat) ≠ 3 := by
  refine ⟨by decide, by decide, by decide⟩

/-- C3 amended: `PublishDelayed` constructs its envelope as `Publish` does
— fresh id from the same generator, same topic, same marshalled payload,
`created_at` = now, `retries = 0` — except that it leaves `max_retries` at
0 instead of the default 3 (the struct literal omits both counter fields);
it inserts the envelope into the shared delayed sorted set with score
`now + delay` instead of pushing the ready list, and it returns an error
exactly when payload serialization fails or the sorted-set add fails
(envelope serialization of a successfully marshalled payload cannot
fail). -/
theorem publishDelayedContract (s : QState) (t : String) (p : PayloadVal) (d : Nat) :
    ((PublishDelayed s t p d).1 ≠ none ↔
      (marshalPayload p = none ∨ headFault s = true)) ∧
    (∀ data, marshalPayload p = some data → headFault s = false →
      PublishDelayed s t p d =
        (none, zaddState { s with nextId := s.nextId + 1, faults := s.faults.tail }
          (s.now + d) (.encMsg s.nextId t data s.now 0 0)) ∧
      Publish s t p =
        (none, lpushState { s with nextId := s.nextId + 1, faults := s.faults.tail }
          ("queue:" ++ t) (.encMsg s.nextId t data s.now 0 3))) := by
  constructor
  · cases hp : marshalPayload p with
    | none => rw [publishDelayed_none s t p d hp]; simp [hp]
    | some data =>
      cases hf : headFault s with
      | true => rw [publishDelayed_fault s t p d data hp hf]; simp [hp, hf]
      | false => rw [publishDelayed_ok s t p d data hp hf]; simp [hp, hf]
  · intro data hp hf
    exact ⟨publishDelayed_ok s t p d data hp hf, publish_ok s t p data hp hf⟩

theorem publishDelayedContract_witness :
    (PublishDelayed initState "t" (.blobVal 1) 5).2.zset
      = [(5, .encMsg 0 "t" (.blob 1) 0 0 0)] := by
  have h := (publishDelayedContract initState "t" (.blobVal 1) 5).2 (.blob 1) rfl rfl
  rw [h.1]
  decide

/-! ## C7: the delayed scheduler removes only after a successful publish -/

theorem tickStep_badDecode (st : QState) (b : Bytes)
    (h : unmarshalMsg b = none) : tickStep st b = st := by
  unfold tickStep
  rw [h]

theorem tickStep_eq_some (st : QState) (b : Bytes) (m : Msg)
    (hm : unmarshalMsg b = some m) :
    tickStep st b =
      (match Publish st m.topic (.rawVal m.payload) with
        | (some _, st1) => st1
        | (none, st1) => zremState st1 b) := by
  unfold tickStep
  rw [hm]

theorem tickStep_pubErr (st : QState) (b : Bytes) (m : Msg) (qe : QErr)
    (st1 : QState) (hm : unmarshalMsg b = some m)
    (hp : Publish st m.topic (.rawVal m.payload) = (some qe, st1)) :
    tickStep st b = st1 := by
  rw [tickStep_eq_some st b m hm, hp]

theorem tickStep_pubOk (st : QState) (b : Bytes) (m : Msg) (st1 : QState)
    (hm : unmarshalMsg b = some m)
    (hp : Publish st m.topic (.rawVal m.payload) = (none, st1)) :
    tickStep st b = zremState st1 b := by
  rw [tickStep_eq_some st b m hm, hp]

theorem tickStep_zset_mem (st : QState) (b : Bytes) (q : Nat × Bytes)
    (h : q ∈ (tickStep st b).zset) : q ∈ st.zset := by
  cases hm : unmarshalMsg b with
  | none =>
    rw [tickStep_badDecode st b hm] at h
    exact h
  | some m =>
    have hz := publish_zset st m.topic (.rawVal m.payload)
    cases hp : Publish st m.topic (.rawVal m.payload) with
    | mk e st1 =>
      rw [hp] at hz
      cases e with
      | some qe =>
        rw [tickStep_pubErr st b m qe st1 hm hp] at h
        rw [← hz]
        exact h
      | none =>
        rw [tickStep_pubOk st b m st1 hm hp] at h
        rw [← hz]
        simp only [zremState] at h
        exact (List.mem_filter.mp h).1

theorem foldl_tickStep_zset_mem : ∀ (l : List Bytes) (st : QState) (q : Nat × Bytes),
    q ∈ (l.foldl tickStep st).zset → q ∈ st.zset := by
  intro l
  induction l with
  | nil => intro st q h; exact h
  | cons b rest ih =>
    intro st q h
    exact tickStep_zset_mem st b q (ih (tickStep st b) q h)

/-- C7: inside a scheduler tick, a due member whose bytes fail to decode,
or whose re-publish returns an error, leaves the sorted set unchanged (the
member will be seen again next tick); a member is removed from the sorted
set only sequenced after its own `Publish` succeeded — the tick step then
equals that successful publish followed by the `ZRem` of exactly that
member — and a full tick never adds members to the sorted set. -/
theorem delayedTickKeepsUnpublished (st s : QState) (b : Bytes) :
    (unmarshalMsg b = none → tickStep st b = st) ∧
    (∀ m, unmarshalMsg b = some m →
      (Publish st m.topic (.rawVal m.payload)).1 ≠ none →
      (tickStep st b).zset = st.zset) ∧
    (∀ m, unmarshalMsg b = some m →
      (Publish st m.topic (.rawVal m.payload)).1 = none →
      tickStep st b = zremState (Publish st m.topic (.rawVal m.payload)).2 b) ∧
    (∀ q, q ∈ (tick s).zset → q ∈ s.zset) := by
  refine ⟨tickStep_badDecode st b, ?_, ?_, ?_⟩
  · intro m hm he
    have hz := publish_zset st m.topic (.rawVal m.payload)
    cases hp : Publish st m.topic (.rawVal m.payload) with
    | mk e st1 =>
      rw [hp] at hz he
      cases e with
      | none => simp at he
      | some qe =>
        rw [tickStep_pubErr st b m qe st1 hm hp]
        exact hz
  · intro m hm he
    cases hp : Publish st m.topic (.rawVal m.payload) with
    | mk e st1 =>
      rw [hp] at he
      cases e with
      | none => exact tickStep_pubOk st b m st1 hm hp
      | some qe => simp at he
  · intro q hq
    exact foldl_tickStep_zset_mem (dueMembers s) s q hq

theorem delayedTickKeepsUnpublished_witness :
    (Publish ⟨[], [(0, .encMsg 1 "t" (.blob 2) 0 0 0)], [true], 0, 5⟩ "t"
        (.rawVal (.blob 2))).1 ≠ none ∧
    (tickStep ⟨[], [(0, .encMsg 1 "t" (.blob 2) 0 0 0)], [true], 0, 5⟩
        (.encMsg 1 "t" (.blob 2) 0 0 0)).zset
      = [(0, .encMsg 1 "t" (.blob 2) 0 0 0)] := by
  refine ⟨by decide, ?_⟩
  have h := (delayedTickKeepsUnpublished
      ⟨[], [(0, .encMsg 1 "t" (.blob 2) 0 0 0)], [true], 0, 5⟩ initState
      (.encMsg 1 "t" (.blob 2) 0 0 0)).2.1
    ⟨1, "t", .blob 2, 0, 0, 0⟩ rfl (by decide)
  rw [h]

/-! ## C1: the retry loop never reaches the dead-letter sink -/

theorem invB_iff (t : String) (s : QState) :
    InvB t s = true ↔
      (s.lists.all (fun e => e.1 == "queue:" ++ t || e.2.isEmpty) = true ∧
       (s.getList ("queue:" ++ t)).all (readyOkB t) = true ∧
       s.zset.all (fun q => zsetOkB t q.2) = true) := by
  simp [InvB, InvCore, QState.getList, Bool.and_eq_true, and_assoc]

theorem invB_meta (t : String) (s s' : QState)
    (hl : s'.lists = s.lists) (hz : s'.zset = s.zset) :
    InvB t s' = InvB t s := by
  unfold InvB
  rw [hl, hz]

theorem invB_update_meta (t : String) (s : QState) (n : Nat) (fs : List Bool)
    (cl : Nat) (hInv : InvB t s = true) :
    InvB t { lists := s.lists, zset := s.zset, faults := fs,
             nextId := n, now := cl } = true := by
  rw [invB_meta t s { lists := s.lists, zset := s.zset, faults := fs,
                      nextId := n, now := cl } rfl rfl]
  exact hInv

theorem all_filter_of_all {α : Type} (l : List α) (p f : α → Bool)
    (h : l.all p = true) : (l.filter f).all p = true := by
  rw [List.all_eq_true] at h ⊢
  intro x hx
  exact h x (List.mem_filter.mp hx).1

theorem invB_lpush_ready (t : String) (s : QState) (b : Bytes)
    (hInv : InvB t s = true) (hb : readyOkB t b = true) :
    InvB t (lpushState s ("queue:" ++ t) b) = true := by
  rw [invB_iff] at hInv ⊢
  obtain ⟨hA, hB, hC⟩ := hInv
  refine ⟨?_, ?_, hC⟩
  · rw [List.all_eq_true]
    intro e he
    simp only [lpushState] at he
    rcases mem_assocSet _ _ _ e he with he1 | he1
    · rw [he1]
      simp
    · exact List.all_eq_true.mp hA e he1
  · have hget : (lpushState s ("queue:" ++ t) b).getList ("queue:" ++ t)
        = b :: s.getList ("queue:" ++ t) := by
      rw [getList_lpush]
      simp
    rw [hget, List.all_cons, Bool.and_eq_true]
    exact ⟨hb, hB⟩

theorem invB_zadd (t : String) (s : QState) (sc : Nat) (b : Bytes)
    (hInv : InvB t s = true) (hb : zsetOkB t b = true) :
    InvB t (zaddState s sc b) = true := by
  rw [invB_iff] at hInv ⊢
  obtain ⟨hA, hB, hC⟩ := hInv
  refine ⟨hA, hB, ?_⟩
  simp only [zaddState]
  rw [List.all_append, Bool.and_eq_true]
  refine ⟨all_filter_of_all _ _ _ hC, ?_⟩
  simp [hb]

theorem invB_zrem (t : String) (s : QState) (b : Bytes)
    (hInv : InvB t s = true) : InvB t (zremState s b) = true := by
  rw [invB_iff] at hInv ⊢
  obtain ⟨hA, hB, hC⟩ := hInv
  exact ⟨hA, hB, all_filter_of_all _ _ _ hC⟩

theorem invB_publish (t : String) (s : QState) (p : PayloadVal)
    (hInv : InvB t s = true) :
    InvB t ((Publish s t p).2) = true := by
  cases hp : marshalPayload p with
  | none =>
    rw [publish_none s t p hp]
    exact hInv
  | some data =>
    cases hf : headFault s with
    | true =>
      rw [publish_fault s t p data hp hf]
      exact invB_update_meta t s (s.nextId + 1) s.faults.tail s.now hInv
    | false =>
      rw [publish_ok s t p data hp hf]
      have hv := jsonValid_of_marshalPayload p data hp
      have hmid : InvB t ({ s with nextId := s.nextId + 1, faults := s.faults.tail } : QState) = true :=
        invB_update_meta t s (s.nextId + 1) s.faults.tail s.now hInv
      apply invB_lpush_ready t _ _ hmid
      simp [readyOkB, unmarshalMsg, hv]

theorem invB_retry (t : String) (s : QState) (m : Msg)
    (hInv : InvB t s = true) (ht : m.topic = t)
    (hv : jsonValid m.payload = true) :
    InvB t (retryMessage s m) = true := by
  unfold retryMessage
  rw [ht]
  have hp : marshalPayload (.msgVal m)
      = some (.encMsg m.id m.topic m.payload m.timestamp m.retries m.maxRetries) := by
    simp [marshalPayload, marshalMsg, hv]
  cases hf : headFault s with
  | true =>
    rw [publishDelayed_fault s t _ _ _ hp hf]
    exact invB_update_meta t s (s.nextId + 1) s.faults.tail s.now hInv
  | false =>
    rw [publishDelayed_ok s t _ _ _ hp hf]
    have hmid : InvB t ({ s with nextId := s.nextId + 1, faults := s.faults.tail } : QState) = true :=
      invB_update_meta t s (s.nextId + 1) s.faults.tail s.now hInv
    apply invB_zadd t _ _ _ hmid
    simp [zsetOkB, unmarshalMsg]

theorem invB_processSingleFail (t : String) (s : QState) (m : Msg) (h : Handler)
    (hfail : (h m).isSome = true) (hInv : InvB t s = true)
    (ht : m.topic = t) (hr : m.retries = 0) (hmr : m.maxRetries = 3)
    (hv : jsonValid m.payload = true) :
    InvB t (processMessageAux s m [h]).1 = true := by
  obtain ⟨e, he⟩ := Option.isSome_iff_exists.mp hfail
  have hlt : m.retries < m.maxRetries := by omega
  have hstep : (processMessageAux s m [h]).1
      = retryMessage s { m with retries := m.retries + 1 } := by
    simp [processMessageAux, he, hlt]
  rw [hstep]
  exact invB_retry t s _ hInv ht hv

theorem invB_popProcess (t : String) (rq : RQ) (s : QState) (h : Handler)
    (hreg : assocGet rq.handlers t [] = [h])
    (hfail : ∀ m, (h m).isSome = true)
    (hInv : InvB t s = true) :
    InvB t (popProcess rq s t).1 = true := by
  cases hlast : (s.getList ("queue:" ++ t)).getLast? with
  | none =>
    simp only [popProcess, brpopState, hlast]
    exact hInv
  | some b =>
    have hbmem : b ∈ s.getList ("queue:" ++ t) := mem_of_getLast? _ b hlast
    have hready : readyOkB t b = true := by
      have hB := ((invB_iff t s).mp hInv).2.1
      exact List.all_eq_true.mp hB b hbmem
    have hs1 : InvB t ({ s with
        lists := assocSet s.lists ("queue:" ++ t)
          (s.getList ("queue:" ++ t)).dropLast } : QState) = true := by
      rw [invB_iff] at hInv ⊢
      obtain ⟨hA, hB, hC⟩ := hInv
      refine ⟨?_, ?_, hC⟩
      · rw [List.all_eq_true]
        intro e he
        rcases mem_assocSet _ _ _ e he with he1 | he1
        · rw [he1]
          simp
        · exact List.all_eq_true.mp hA e he1
      · have hget : ({ s with
            lists := assocSet s.lists ("queue:" ++ t)
              (s.getList ("queue:" ++ t)).dropLast } : QState).getList ("queue:" ++ t)
            = (s.getList ("queue:" ++ t)).dropLast := by
          simp [QState.getList, assocGet_set_eq]
        rw [hget, List.all_eq_true]
        intro x hx
        exact List.all_eq_true.mp hB x (mem_dropLast _ x hx)
    simp only [popProcess, brpopState, hlast]
    cases hm : unmarshalMsg b with
    | none =>
      simp only [processTask, hm]
      exact hs1
    | some m =>
      have hflds := hready
      simp only [readyOkB, hm, Bool.and_eq_true, beq_iff_eq] at hflds
      obtain ⟨⟨⟨ht, hr0⟩, hmr3⟩, hval⟩ := hflds
      simp only [processTask, hm, processMessage]
      rw [ht, hreg]
      exact invB_processSingleFail t _ m h (hfail m) hs1 ht hr0 hmr3 hval

theorem invB_tickStep (t : String) (st : QState) (b : Bytes)
    (hInv : InvB t st = true) (hb : zsetOkB t b = true) :
    InvB t (tickStep st b) = true := by
  cases hm : unmarshalMsg b with
  | none =>
    rw [tickStep_badDecode st b hm]
    exact hInv
  | some m =>
    have ht : m.topic = t := by
      simp only [zsetOkB, hm, beq_iff_eq] at hb
      exact hb
    have hpub : InvB t ((Publish st m.topic (.rawVal m.payload)).2) = true := by
      rw [ht]
      exact invB_publish t st (.rawVal m.payload) hInv
    cases hp : Publish st m.topic (.rawVal m.payload) with
    | mk e st1 =>
      rw [hp] at hpub
      cases e with
      | some qe =>
        rw [tickStep_pubErr st b m qe st1 hm hp]
        exact hpub
      | none =>
        rw [tickStep_pubOk st b m st1 hm hp]
        exact invB_zrem t st1 b hpub

theorem invB_foldTick (t : String) : ∀ (l : List Bytes) (st : QState),
    (∀ b ∈ l, zsetOkB t b = true) → InvB t st = true →
    InvB t (l.foldl tickStep st) = true := by
  intro l
  induction l with
  | nil =>
    intro st _ h
    exact h
  | cons b rest ih =>
    intro st hall hInv
    have h1 := invB_tickStep t st b hInv (hall b (by simp))
    exact ih (tickStep st b) (fun x hx => hall x (by simp [hx])) h1

theorem invB_tick (t : String) (s : QState) (hInv : InvB t s = true) :
    InvB t (tick s) = true := by
  apply invB_foldTick t (dueMembers s) s ?_ hInv
  intro b hb
  unfold dueMembers at hb
  rcases List.mem_map.mp hb with ⟨q, hq, hbq⟩
  have hqz : q ∈ s.zset := (List.mem_filter.mp hq).1
  have hC := ((invB_iff t s).mp hInv).2.2
  rw [← hbq]
  exact List.all_eq_true.mp hC q hqz

theorem invB_stepCycle (t : String) (rq : RQ) (h : Handler) (d : Nat) (s : QState)
    (hreg : assocGet rq.handlers t [] = [h])
    (hfail : ∀ m, (h m).isSome = true)
    (hInv : InvB t s = true) :
    InvB t (stepCycle rq t d s) = true := by
  unfold stepCycle
  apply invB_tick
  exact invB_update_meta t ((popProcess rq s t).1) ((popProcess rq s t).1).nextId
    ((popProcess rq s t).1).faults (((popProcess rq s t).1).now + d)
    (invB_popProcess t rq s h hreg hfail hInv)

/-- C1: refuted — with a single always-failing handler registered for a
topic, starting from any store satisfying the single-topic invariant (in
particular from the store right after publishing the envelope), after any
number of consume-process-tick cycles with arbitrary clock advances and
arbitrary store faults, the invariant still holds and the topic's
dead-letter list is still empty. The retry path re-wraps the failed
envelope (`retryMessage` passes it as payload to `PublishDelayed`, which
builds a fresh envelope with `retries = 0`, and the scheduler re-wraps once
more through `Publish`), so every envelope ever popped from the ready list
has `retries = 0`: the retry bound never binds, the handler never sees
strictly increasing `retries` values, and no dead-letter record is ever
pushed — contradicting `max_retries` retries followed by exactly one
dead-letter record. -/
theorem alwaysFailingNeverDeadLettered (t : String) (h : Handler) (rq : RQ)
    (hreg : assocGet rq.handlers t [] = [h])
    (hfail : ∀ m, (h m).isSome = true)
    (s : QState) (hInv : InvB t s = true) (ds : List Nat) :
    InvB t (iterCycles rq t ds s) = true ∧
    (iterCycles rq t ds s).getList ("dead_letter:" ++ t) = [] := by
  have hmain : ∀ (l : List Nat) (s0 : QState), InvB t s0 = true →
      InvB t (iterCycles rq t l s0) = true := by
    intro l
    induction l with
    | nil =>
      intro s0 h0
      exact h0
    | cons d rest ih =>
      intro s0 h0
      have hstep : iterCycles rq t (d :: rest) s0
          = iterCycles rq t rest (stepCycle rq t d s0) := rfl
      rw [hstep]
      exact ih (stepCycle rq t d s0) (invB_stepCycle t rq h d s0 hreg hfail h0)
  have hfin := hmain ds s hInv
  refine ⟨hfin, ?_⟩
  have hA := ((invB_iff t _).mp hfin).1
  unfold QState.getList
  exact assocGet_nil_of_all _ _ _ hA (deadletter_key_ne t)

theorem alwaysFailingNeverDeadLettered_witness :
    (iterCycles rqFailA "a" [2, 2, 2] s0FailA).getList ("dead_letter:" ++ "a") = [] :=
  (alwaysFailingNeverDeadLettered "a" hFail rqFailA rfl (fun _ => rfl)
    s0FailA (by decide) [2, 2, 2]).2
